import Mathlib

/-!
# Verification of the kouchou-ai extraction and report-sync core

Shallow embedding of the Python sources in Lean 4:

* `server/broadlistening/pipeline/steps/extraction.py`
  (`extract_batch`, `extract_arguments`, the dedup loop of `extraction`);
* `server/src/services/storage.py` (`AzureBlobStorageService`);
* `server/src/services/report_sync.py` (`ReportSyncService`);
* `server/src/services/report_status.py` and `server/src/schemas/report.py`.

Machine state (local filesystem, remote blob store, status table) is passed
explicitly; Python exceptions are `Except` errors; Python `None`/`bool`
return values are a `PyRet` type so that "returns None" and "returns False"
stay distinguishable.
-/

set_option maxHeartbeats 1000000

namespace KouchouAi

/-! ## Python-side value and error types -/

/-- The Python return values the embedded functions actually produce:
`None` or a `bool`.  A function that falls off the end returns `pynone`. -/
inductive PyRet where
  | pynone
  | pybool (b : Bool)
deriving DecidableEq, Repr

/-- Python truthiness of an embedded return value: `None` is falsy. -/
def PyRet.truthy : PyRet → Bool
  | .pynone => false
  | .pybool b => b

/-- The Python exception classes distinguished by the embedded code paths. -/
inductive PyErr where
  | fileNotFound (msg : String)
  | typeError (msg : String)
  | jsonDecodeError (msg : String)
  | runtimeError (msg : String)
  | valueError (msg : String)
  | validationError (msg : String)
  | otherError (msg : String)
deriving DecidableEq, Repr

/-! ## Batch Executor: `extract_batch` (extraction.py lines 93-114)

One thread-pool future per batch input.  At the 30-second wait deadline each
future is either in `done` — having produced a value or raised — or still
pending.  The embedding abstracts a future's fate at the deadline into
`CallOutcome`; the loop body that builds `results` is translated statement by
statement (`results = [[] for _ in range(len(batch))]`, then one `results[i]`
assignment per future in `done`). -/

/-- The fate of one submitted model call at the batch deadline:
finished with a value, finished by raising, or still pending (its slot is
never written; `future.cancel()` is only attempted on it). -/
inductive CallOutcome where
  | finished (result : Except PyErr (List String))
  | pending
deriving Repr

/-- The value the claim says slot `i` should hold: the call's own result,
with the empty list standing in for a raised or still-pending call. -/
def slotResult : CallOutcome → List String
  | .finished (.ok v) => v
  | .finished (.error _) => []
  | .pending => []

/-- One iteration of the `for i, future in futures_with_index` loop of
`extract_batch`: a future in `done` writes `results[i]` (its value, or `[]`
if `future.result()` re-raises); a pending future leaves `results` alone. -/
def batchStep (results : List (List String)) (i : Nat) (f : CallOutcome) :
    List (List String) :=
  match f with
  | .finished (.ok v) => results.set i v
  | .finished (.error _) => results.set i []
  | .pending => results

/-- The whole result-collection loop, with `i` the running `enumerate`
index of `futures_with_index`. -/
def fillResults (results : List (List String)) (i : Nat) :
    List CallOutcome → List (List String)
  | [] => results
  | f :: rest => fillResults (batchStep results i f) (i + 1) rest

/-- `extract_batch` (extraction.py lines 93-114): submit one call per batch
input, wait with a deadline, then collect `results[i]` per future, never
propagating a per-call failure. -/
def extract_batch (outcomes : List CallOutcome) : List (List String) :=
  fillResults (List.replicate outcomes.length []) 0 outcomes

lemma batchStep_length (results : List (List String)) (i : Nat)
    (f : CallOutcome) : (batchStep results i f).length = results.length := by
  cases f with
  | finished r => cases r <;> simp [batchStep]
  | pending => simp [batchStep]

lemma fillResults_length (l : List CallOutcome) :
    ∀ (i : Nat) (results : List (List String)),
      (fillResults results i l).length = results.length := by
  induction l with
  | nil => intro i results; simp [fillResults]
  | cons f rest ih =>
      intro i results
      simp [fillResults, ih, batchStep_length]

lemma batchStep_getElem?_ne (results : List (List String)) (i j : Nat)
    (f : CallOutcome) (h : j ≠ i) :
    (batchStep results i f)[j]? = results[j]? := by
  cases f with
  | finished r => cases r <;> simp [batchStep, List.getElem?_set_ne (Ne.symm h)]
  | pending => simp [batchStep]

lemma fillResults_getElem?_lt (l : List CallOutcome) :
    ∀ (i : Nat) (results : List (List String)) (j : Nat), j < i →
      (fillResults results i l)[j]? = results[j]? := by
  induction l with
  | nil => intro i results j _; simp [fillResults]
  | cons f rest ih =>
      intro i results j hj
      rw [fillResults, ih (i + 1) _ j (Nat.lt_succ_of_lt hj)]
      exact batchStep_getElem?_ne results i j f (Nat.ne_of_lt hj)

lemma fillResults_getElem?_main (l : List CallOutcome) :
    ∀ (i : Nat) (results : List (List String)) (m : Nat) (hm : m < l.length),
      i + m < results.length →
      (fillResults results i l)[i + m]? =
        match l.get ⟨m, hm⟩ with
        | .pending => results[i + m]?
        | f => some (slotResult f) := by
  induction l with
  | nil => intro i results m hm; exact absurd hm (by simp)
  | cons f rest ih =>
      intro i results m hm hlen
      match m with
      | 0 =>
          rw [fillResults]
          have hget : (fillResults (batchStep results i f) (i + 1) rest)[i + 0]? =
              (batchStep results i f)[i]? := by
            simpa using fillResults_getElem?_lt rest (i + 1) _ i (Nat.lt_succ_self i)
          rw [hget]
          have hi : i < results.length := by omega
          cases f with
          | finished r =>
              cases r with
              | ok v => simp [batchStep, slotResult, List.getElem?_set_self hi]
              | error e => simp [batchStep, slotResult, List.getElem?_set_self hi]
          | pending => simp [batchStep]
      | m' + 1 =>
          rw [fillResults]
          have harith : i + (m' + 1) = (i + 1) + m' := by omega
          have hm' : m' < rest.length := by simpa using Nat.lt_of_succ_lt_succ hm
          have hlen' : (i + 1) + m' < (batchStep results i f).length := by
            rw [batchStep_length]; omega
          have heq := ih (i + 1) (batchStep results i f) m' hm' hlen'
          rw [harith, heq]
          have hne : (i + 1) + m' ≠ i := by omega
          have hstep := batchStep_getElem?_ne results i ((i + 1) + m') f hne
          have hcons : (f :: rest).get ⟨m' + 1, hm⟩ = rest.get ⟨m', hm'⟩ := by simp
          rw [hcons]
          cases hr : rest.get ⟨m', hm'⟩ with
          | finished r => rfl
          | pending => simpa using hstep

lemma extract_batch_getElem? (outcomes : List CallOutcome) (j : Nat)
    (hj : j < outcomes.length) :
    (extract_batch outcomes)[j]? = some (slotResult (outcomes.get ⟨j, hj⟩)) := by
  have hlen : 0 + j < (List.replicate outcomes.length ([] : List String)).length := by
    simpa using hj
  have heq := fillResults_getElem?_main outcomes 0 (List.replicate outcomes.length []) j hj hlen
  rw [Nat.zero_add] at heq
  rw [extract_batch, heq]
  cases ho : outcomes.get ⟨j, hj⟩ with
  | finished r => rfl
  | pending =>
      simp only [slotResult]
      rw [List.getElem?_replicate]
      simp [hj]

/-- C4: for every list of batch inputs and every behaviour of the individual
model calls (any subset finishing, successfully or by raising, the rest still
pending at the deadline), `extract_batch` returns one slot per input and the
slot at position `i` holds exactly the result of call `i`. -/
theorem extract_batch_positional (outcomes : List CallOutcome) :
    (extract_batch outcomes).length = outcomes.length ∧
    ∀ (i : Nat) (h : i < outcomes.length),
      (extract_batch outcomes)[i]? = some (slotResult (outcomes.get ⟨i, h⟩)) := by
  constructor
  · rw [extract_batch, fillResults_length]; simp
  · intro i h
    exact extract_batch_getElem? outcomes i h

/-! ## `extract_arguments` (extraction.py lines 126-141)

`request_to_chat_openai` either returns raw text or raises (the raise
propagates into the future and is handled in `extract_batch`).  The raw
text is fed to `parse_response` (`services/parse_json_list.py`, not part of
this snapshot); per its use here, parsing yields the list of argument
strings or raises `json.decoder.JSONDecodeError`, which `extract_arguments`
catches, returning `[]`.  On success, `filter(None, items)` drops empty
strings. -/

/-- The outcome of the `request_to_chat_openai` call inside one
`extract_arguments` invocation. -/
inductive LLMOutcome where
  | responded (raw : String)
  | raised (e : PyErr)
deriving Repr

/-- `extract_arguments` (extraction.py lines 126-141), parameterized by the
parser: a raised model error propagates; a response whose parse raises is
caught and becomes `[]`; a parsed list is returned with empty strings
removed. -/
def extract_arguments (parse : String → Except PyErr (List String))
    (llm : LLMOutcome) : Except PyErr (List String) :=
  match llm with
  | .raised e => .error e
  | .responded raw =>
      match parse raw with
      | .error _ => .ok []
      | .ok items => .ok (items.filter (fun s => s ≠ ""))

/-- C5: a model call that raises, a call whose response fails to parse as
the expected list structure, and a call still pending at the batch deadline
all yield the empty list at their own result slot only; every other slot
holds its own call's result unaffected, and no failure propagates (the
batch function total-returns a plain list). -/
theorem extract_batch_failure_isolated (outcomes : List CallOutcome) (i : Nat)
    (hi : i < outcomes.length)
    (hfail : outcomes.get ⟨i, hi⟩ = .pending ∨
      (∃ e, outcomes.get ⟨i, hi⟩ = .finished (.error e)) ∨
      (∃ parse raw e, outcomes.get ⟨i, hi⟩ =
          .finished (extract_arguments parse (.responded raw)) ∧
        parse raw = .error e)) :
    (extract_batch outcomes)[i]? = some [] ∧
    ∀ (j : Nat) (hj : j < outcomes.length), j ≠ i →
      (extract_batch outcomes)[j]? = some (slotResult (outcomes.get ⟨j, hj⟩)) := by
  refine ⟨?_, fun j hj _ => extract_batch_getElem? outcomes j hj⟩
  rw [extract_batch_getElem? outcomes i hi]
  rcases hfail with h | ⟨e, h⟩ | ⟨parse, raw, e, h, hparse⟩
  · rw [h]; rfl
  · rw [h]; rfl
  · rw [h, extract_arguments, hparse]; rfl

/-- Witness for C5: a three-call batch where call 1's response fails to
parse; its slot is `[]` and the neighbouring slots keep their results. -/
theorem extract_batch_failure_isolated_witness :
    (extract_batch [.finished (.ok ["a"]),
        .finished (extract_arguments (fun _ => .error (.jsonDecodeError "bad"))
          (.responded "not json")),
        .finished (.ok ["c"])])[1]? = some [] ∧
    ∀ (j : Nat) (hj : j < 3), j ≠ 1 →
      (extract_batch [.finished (.ok ["a"]),
          .finished (extract_arguments (fun _ => .error (.jsonDecodeError "bad"))
            (.responded "not json")),
          .finished (.ok ["c"])])[j]? =
        some (slotResult ([CallOutcome.finished (.ok ["a"]),
          .finished (extract_arguments (fun _ => .error (.jsonDecodeError "bad"))
            (.responded "not json")),
          .finished (.ok ["c"])].get ⟨j, hj⟩)) :=
  extract_batch_failure_isolated
    [.finished (.ok ["a"]),
      .finished (extract_arguments (fun _ => .error (.jsonDecodeError "bad"))
        (.responded "not json")),
      .finished (.ok ["c"])] 1 (by decide)
    (Or.inr (Or.inr ⟨fun _ => .error (.jsonDecodeError "bad"), "not json",
      .jsonDecodeError "bad", rfl, rfl⟩))

/-- Witness for C4 at a concrete three-call batch with mixed outcomes. -/
theorem extract_batch_positional_witness :
    (extract_batch [.finished (.ok ["a", "b"]), .pending,
        .finished (.error (.otherError "boom"))]).length = 3 ∧
    (extract_batch [.finished (.ok ["a", "b"]), .pending,
        .finished (.error (.otherError "boom"))])[0]? = some ["a", "b"] := by
  obtain ⟨hlen, hpos⟩ := extract_batch_positional
    [.finished (.ok ["a", "b"]), .pending, .finished (.error (.otherError "boom"))]
  exact ⟨hlen, hpos 0 (by decide)⟩

/-! ## Argument Deduplicator: the batch loop of `extraction`
(extraction.py lines 43-76)

`argument_map` is a Python dict keyed by argument text; it is embedded as an
insertion-ordered association list, with `lookupText` as membership test /
lookup.  The nested loops `for comment_id, extracted_args in zip(batch,
batch_results): for j, arg in enumerate(extracted_args): ...` are embedded
one-to-one; batching is irrelevant to the dedup state because the chunks are
processed strictly in order, so the item stream is embedded directly. -/

/-- One row of the argument table (`args.csv`): `{arg-id, argument}`. -/
structure ArgRow where
  argId : String
  argument : String
deriving DecidableEq, Repr

/-- One row of the relation table (`relations.csv`): `{arg-id, comment-id}`
plus the item's carried property columns. -/
structure RelRow where
  argId : String
  commentId : String
  props : List (String × String)
deriving DecidableEq, Repr

/-- One input item as the dedup loop sees it: its `comment-id`, its property
column values, and the argument texts its batch slot produced. -/
structure Item where
  commentId : String
  props : List (String × String)
  args : List String
deriving DecidableEq, Repr

/-- One occurrence of an argument text: owning item, carried properties, the
position `j` of the text within that item's extraction result, and the text. -/
structure Occ where
  commentId : String
  props : List (String × String)
  pos : Nat
  text : String
deriving DecidableEq, Repr

/-- `arg_id = f"A\x7bcomment_id\x7d_\x7bj\x7d"` (extraction.py line 55). -/
def mkArgId (o : Occ) : String := "A" ++ o.commentId ++ "_" ++ toString o.pos

/-- Membership/lookup in the embedded `argument_map` dict
(`arg not in argument_map` / `argument_map[arg]`). -/
def lookupText : List (String × ArgRow) → String → Option ArgRow
  | [], _ => none
  | (k, row) :: rest, t => if k = t then some row else lookupText rest t

/-- The inner `for j, arg in enumerate(extracted_args)` loop: unseen text
allocates `A<comment_id>_<j>` and a new argument row; either way one
relation row is appended carrying the item's id and properties. -/
def processArgs (commentId : String) (props : List (String × String)) :
    Nat → List String → List (String × ArgRow) × List RelRow →
    List (String × ArgRow) × List RelRow
  | _, [], st => st
  | j, arg :: rest, (amap, rels) =>
      match lookupText amap arg with
      | none =>
          let aid := "A" ++ commentId ++ "_" ++ toString j
          processArgs commentId props (j + 1) rest
            (amap ++ [(arg, ⟨aid, arg⟩)], rels ++ [⟨aid, commentId, props⟩])
      | some row =>
          processArgs commentId props (j + 1) rest
            (amap, rels ++ [⟨row.argId, commentId, props⟩])

/-- The outer loop of `extraction` over the stream of
`(comment_id, extracted_args)` pairs. -/
def extractionFold :
    List Item → List (String × ArgRow) × List RelRow →
    List (String × ArgRow) × List RelRow
  | [], st => st
  | it :: rest, st =>
      extractionFold rest (processArgs it.commentId it.props 0 it.args st)

/-- The occurrences contributed by one item, with their in-item positions
starting at `j`. -/
def argOccs (commentId : String) (props : List (String × String)) :
    Nat → List String → List Occ
  | _, [] => []
  | j, t :: rest => ⟨commentId, props, j, t⟩ :: argOccs commentId props (j + 1) rest

/-- The full occurrence stream of a run, in processing order. -/
def occurrences : List Item → List Occ
  | [] => []
  | it :: rest => argOccs it.commentId it.props 0 it.args ++ occurrences rest

/-- The dedup loop re-expressed over the flat occurrence stream; proved
equal to `extractionFold` below. -/
def dedupRun :
    List (String × ArgRow) × List RelRow → List Occ →
    List (String × ArgRow) × List RelRow
  | st, [] => st
  | (amap, rels), o :: rest =>
      match lookupText amap o.text with
      | none =>
          dedupRun (amap ++ [(o.text, ⟨mkArgId o, o.text⟩)],
            rels ++ [⟨mkArgId o, o.commentId, o.props⟩]) rest
      | some row =>
          dedupRun (amap, rels ++ [⟨row.argId, o.commentId, o.props⟩]) rest

lemma dedupRun_append (l₁ l₂ : List Occ) :
    ∀ st, dedupRun st (l₁ ++ l₂) = dedupRun (dedupRun st l₁) l₂ := by
  induction l₁ with
  | nil => intro st; rfl
  | cons o rest ih =>
      intro st
      obtain ⟨amap, rels⟩ := st
      rw [List.cons_append, dedupRun, dedupRun]
      cases lookupText amap o.text <;> simp only [ih]

lemma processArgs_eq_dedupRun (commentId : String) (props : List (String × String))
    (args : List String) :
    ∀ (j : Nat) st, processArgs commentId props j args st =
      dedupRun st (argOccs commentId props j args) := by
  induction args with
  | nil => intro j st; rfl
  | cons t rest ih =>
      intro j st
      obtain ⟨amap, rels⟩ := st
      rw [processArgs, argOccs, dedupRun]
      cases lookupText amap t <;> simp only [ih, mkArgId]

lemma extractionFold_eq_dedupRun (items : List Item) :
    ∀ st, extractionFold items st = dedupRun st (occurrences items) := by
  induction items with
  | nil => intro st; rfl
  | cons it rest ih =>
      intro st
      rw [extractionFold, occurrences, dedupRun_append, ih,
        processArgs_eq_dedupRun]

lemma lookupText_append_single (m : List (String × ArgRow)) (k : String)
    (r : ArgRow) (t : String) :
    lookupText (m ++ [(k, r)]) t =
      match lookupText m t with
      | some x => some x
      | none => if k = t then some r else none := by
  induction m with
  | nil => rfl
  | cons p rest ih =>
      obtain ⟨k', r'⟩ := p
      by_cases h : k' = t <;> simp [lookupText, h, ih]

lemma lookupText_none_not_mem (m : List (String × ArgRow)) (t : String)
    (h : lookupText m t = none) : t ∉ m.map Prod.fst := by
  induction m with
  | nil => simp
  | cons p rest ih =>
      obtain ⟨k, r⟩ := p
      by_cases hk : k = t
      · rw [lookupText, if_pos hk] at h; exact absurd h (by simp)
      · rw [lookupText, if_neg hk] at h
        intro hmem
        rcases (by simpa using hmem : t = k ∨ t ∈ rest.map Prod.fst) with h1 | h1
        · exact hk h1.symm
        · exact ih h h1

/-- First-occurrence characterization of the final `argument_map`: a text is
mapped to the row recorded at its first occurrence in the stream (or kept
from the initial map). -/
lemma dedupRun_lookup (l : List Occ) :
    ∀ st t, lookupText (dedupRun st l).1 t =
      match lookupText st.1 t with
      | some row => some row
      | none =>
        match l.find? (fun o => o.text == t) with
        | some o => some ⟨mkArgId o, o.text⟩
        | none => none := by
  induction l with
  | nil =>
      intro st t
      obtain ⟨amap, rels⟩ := st
      cases h : lookupText amap t with
      | none => simp [dedupRun, h]
      | some row => simp [dedupRun, h]
  | cons o rest ih =>
      intro st t
      obtain ⟨amap, rels⟩ := st
      rw [dedupRun]
      cases hx : lookupText amap o.text with
      | none =>
          rw [ih]
          simp only [List.find?]
          by_cases ht : o.text = t
          · subst ht
            rw [lookupText_append_single, hx]
            simp [hx]
          · have : (o.text == t) = false := by simp [ht]
            rw [this, lookupText_append_single]
            cases hy : lookupText amap t with
            | none => simp [hy, ht]
            | some row => simp [hy]
      | some row =>
          rw [ih]
          simp only [List.find?]
          by_cases ht : o.text = t
          · subst ht; simp [hx]
          · have : (o.text == t) = false := by simp [ht]
            rw [this]

/-- Map entries are never overwritten: an existing binding survives the rest
of the run. -/
lemma dedupRun_lookup_mono (l : List Occ) (st : List (String × ArgRow) × List RelRow)
    (t : String) (row : ArgRow) (h : lookupText st.1 t = some row) :
    lookupText (dedupRun st l).1 t = some row := by
  rw [dedupRun_lookup, h]

/-- The relation row the code emits for occurrence `o`, described through the
final map: its arg-id is whatever the final `argument_map` holds for the
text (which `dedupRun_lookup` resolves to the first occurrence's id). -/
def relOf (finalMap : List (String × ArgRow)) (o : Occ) : RelRow :=
  ⟨(match lookupText finalMap o.text with
    | some row => row.argId
    | none => ""), o.commentId, o.props⟩

/-- The final relation table is one row per occurrence, in stream order,
each resolved through the final argument map. -/
lemma dedupRun_rels (l : List Occ) :
    ∀ st, (dedupRun st l).2 = st.2 ++ l.map (relOf (dedupRun st l).1) := by
  induction l with
  | nil => intro st; simp [dedupRun]
  | cons o rest ih =>
      intro st
      obtain ⟨amap, rels⟩ := st
      rw [dedupRun]
      cases hx : lookupText amap o.text with
      | none =>
          have hlook : lookupText
              (dedupRun (amap ++ [(o.text, ⟨mkArgId o, o.text⟩)],
                rels ++ [⟨mkArgId o, o.commentId, o.props⟩]) rest).1 o.text =
              some ⟨mkArgId o, o.text⟩ := by
            apply dedupRun_lookup_mono
            rw [lookupText_append_single, hx]
            simp
          rw [ih]
          simp only [List.map_cons, relOf, hlook, List.append_assoc,
            List.singleton_append]
      | some row =>
          have hlook : lookupText (dedupRun (amap,
              rels ++ [⟨row.argId, o.commentId, o.props⟩]) rest).1 o.text =
              some row := dedupRun_lookup_mono rest _ o.text row hx
          rw [ih]
          simp only [List.map_cons, relOf, hlook, List.append_assoc,
            List.singleton_append]

lemma filter_eq_nil_of_not_key (m : List (String × ArgRow)) (t : String)
    (hkey : ∀ p ∈ m, p.2.argument = p.1) (hmem : t ∉ m.map Prod.fst) :
    (m.map Prod.snd).filter (fun row => row.argument == t) = [] := by
  induction m with
  | nil => rfl
  | cons p rest ih =>
      obtain ⟨k, r⟩ := p
      have hk : k ≠ t := fun h => hmem (by simp [h])
      have hr : r.argument = k := hkey (k, r) (by simp)
      have hmem' : t ∉ rest.map Prod.fst := fun hm => hmem (by simp [hm])
      have hb : (r.argument == t) = false := by simp [hr, hk]
      simp only [List.map_cons, List.filter_cons, hb]
      exact ih (fun p hp => hkey p (by simp [hp])) hmem'

/-- For a well-keyed map with distinct keys, the argument-table rows whose
text is `t` are exactly what `lookupText` finds. -/
lemma filter_eq_lookup (m : List (String × ArgRow)) (t : String)
    (hkey : ∀ p ∈ m, p.2.argument = p.1) (hnd : (m.map Prod.fst).Nodup) :
    (m.map Prod.snd).filter (fun row => row.argument == t) =
      match lookupText m t with
      | some row => [row]
      | none => [] := by
  induction m with
  | nil => rfl
  | cons p rest ih =>
      obtain ⟨k, r⟩ := p
      have hr : r.argument = k := hkey (k, r) (by simp)
      have hnd' : (rest.map Prod.fst).Nodup := (List.nodup_cons.mp (by simpa using hnd)).2
      have hkmem : k ∉ rest.map Prod.fst := (List.nodup_cons.mp (by simpa using hnd)).1
      by_cases hk : k = t
      · subst hk
        have hb : (r.argument == k) = true := by simp [hr]
        have hnil := filter_eq_nil_of_not_key rest k
          (fun p hp => hkey p (by simp [hp])) hkmem
        have hlk : lookupText ((k, r) :: rest) k = some r := by
          rw [lookupText, if_pos rfl]
        simp only [List.map_cons, List.filter_cons, hb, if_true, hlk, hnil]
      · have hb : (r.argument == t) = false := by simp [hr, hk]
        have hlk : lookupText ((k, r) :: rest) t = lookupText rest t := by
          rw [lookupText, if_neg hk]
        simp only [List.map_cons, List.filter_cons, hb, hlk]
        exact ih (fun p hp => hkey p (by simp [hp])) hnd'

lemma dedupRun_map_invariant (l : List Occ) :
    ∀ (m : List (String × ArgRow)) (r : List RelRow),
      (∀ p ∈ m, p.2.argument = p.1) → (m.map Prod.fst).Nodup →
      (∀ p ∈ (dedupRun (m, r) l).1, p.2.argument = p.1) ∧
      ((dedupRun (m, r) l).1.map Prod.fst).Nodup := by
  induction l with
  | nil => intro m r hkey hnd; exact ⟨hkey, hnd⟩
  | cons o rest ih =>
      intro m r hkey hnd
      rw [dedupRun]
      cases hx : lookupText m o.text with
      | none =>
          apply ih
          · intro p hp
            rcases List.mem_append.mp hp with h | h
            · exact hkey p h
            · simp only [List.mem_singleton] at h; subst h; rfl
          · rw [List.map_append, List.nodup_append]
            refine ⟨hnd, by simp, ?_⟩
            intro a ha hb
            simp only [List.map_cons, List.map_nil, List.mem_singleton] at hb
            subst hb
            exact lookupText_none_not_mem m o.text hx ha
      | some row => exact ih m _ hkey hnd

/-- The final argument table contains, for text `t`, exactly the single row
allocated at `t`'s first occurrence (and nothing if `t` never occurs). -/
lemma dedupRun_table (l : List Occ) (t : String) :
    (((dedupRun ([], []) l).1.map Prod.snd).filter (fun row => row.argument == t)) =
      match l.find? (fun o => o.text == t) with
      | some o => [⟨mkArgId o, o.text⟩]
      | none => [] := by
  have hinv := dedupRun_map_invariant l [] [] (by simp) (by simp)
  rw [filter_eq_lookup _ t hinv.1 hinv.2, dedupRun_lookup]
  simp only [lookupText]
  cases l.find? (fun o => o.text == t) <;> rfl

/-- C6: within one run, an argument text extracted more than once maps every
occurrence to the single id allocated at the first occurrence — an id built
from the first occurrence's owning item and in-item position — the argument
table holds exactly one row for that text, and each occurrence contributes
exactly one relation row pairing that id with the occurrence's item id and
carried properties. -/
theorem extraction_dedup_shared_id (items : List Item) (t : String) (o₀ : Occ)
    (hfirst : (occurrences items).find? (fun o => o.text == t) = some o₀)
    (_hrep : 2 ≤ ((occurrences items).filter (fun o => o.text == t)).length) :
    (((extractionFold items ([], [])).1.map Prod.snd).filter
        (fun row => row.argument == t) = [⟨mkArgId o₀, t⟩]) ∧
    (extractionFold items ([], [])).2.length = (occurrences items).length ∧
    ∀ (k : Nat) (hk : k < (occurrences items).length),
      ((occurrences items).get ⟨k, hk⟩).text = t →
      (extractionFold items ([], [])).2[k]? =
        some ⟨mkArgId o₀, ((occurrences items).get ⟨k, hk⟩).commentId,
          ((occurrences items).get ⟨k, hk⟩).props⟩ := by
  have ht : o₀.text = t := by
    have := List.find?_some hfirst
    simpa using this
  have hrels : (dedupRun ([], []) (occurrences items)).2 =
      (occurrences items).map (relOf (dedupRun ([], []) (occurrences items)).1) := by
    have := dedupRun_rels (occurrences items) ([], [])
    simpa using this
  have hlook : lookupText (dedupRun ([], []) (occurrences items)).1 t =
      some ⟨mkArgId o₀, o₀.text⟩ := by
    rw [dedupRun_lookup]
    simp only [lookupText, hfirst]
  refine ⟨?_, ?_, ?_⟩
  · rw [extractionFold_eq_dedupRun, dedupRun_table, hfirst]
    show [ArgRow.mk (mkArgId o₀) o₀.text] = [ArgRow.mk (mkArgId o₀) t]
    rw [ht]
  · rw [extractionFold_eq_dedupRun, hrels]
    simp
  · intro k hk hkt
    rw [extractionFold_eq_dedupRun, hrels]
    rw [List.getElem?_map]
    have hko : (occurrences items)[k]? = some ((occurrences items).get ⟨k, hk⟩) := by
      simp [List.getElem?_eq_getElem hk]
    rw [hko]
    have hkt' : (occurrences items)[k].text = t := by simpa using hkt
    simp [relOf, hkt', hlook]

/-- Witness for C6: the text `dup` occurs in items `1` (position 1) and `2`
(position 0); both relation rows carry the id `A1_1` allocated at the first
occurrence, and the argument table has the single row `⟨A1_1, dup⟩`. -/
theorem extraction_dedup_shared_id_witness :
    ((((extractionFold [⟨"1", [("src", "a")], ["x", "dup"]⟩,
        ⟨"2", [("src", "b")], ["dup"]⟩] ([], [])).1.map Prod.snd).filter
          (fun row => row.argument == "dup")) = [⟨"A1_1", "dup"⟩]) ∧
    (extractionFold [⟨"1", [("src", "a")], ["x", "dup"]⟩,
        ⟨"2", [("src", "b")], ["dup"]⟩] ([], [])).2.length = 3 :=
  have h := extraction_dedup_shared_id
    [⟨"1", [("src", "a")], ["x", "dup"]⟩, ⟨"2", [("src", "b")], ["dup"]⟩]
    "dup" ⟨"1", [("src", "a")], 1, "dup"⟩ (by decide) (by decide)
  ⟨h.1, h.2.1⟩

/-! ## Extraction Driver tail: the empty-result fatal check
(extraction.py lines 74-87)

After the batch loop, `results = pd.DataFrame(argument_map.values())` and
`relation_df = pd.DataFrame(relation_rows)`; `if results.empty: raise
RuntimeError(...)` fires BEFORE the optional category classification and
before either `to_csv` write, so `.error` below means no output file is
written; `.ok` carries the two tables as written to `args.csv` and
`relations.csv`.  `classify_args` (`services/category_classification.py`,
not part of this snapshot) is abstracted as an opaque table transformation
applied only when classification categories are configured. -/

/-- The tail of `extraction`: build the two tables, raise if the argument
table is empty, otherwise (optionally classify and) write both tables. -/
def extraction (classify : List ArgRow → List ArgRow) (categoriesConfigured : Bool)
    (items : List Item) : Except PyErr (List ArgRow × List RelRow) :=
  let st := extractionFold items ([], [])
  let results := st.1.map Prod.snd
  if results.isEmpty then .error (.runtimeError "result is empty, maybe bad prompt")
  else .ok ((if categoriesConfigured then classify results else results), st.2)

lemma extractionFold_no_args (items : List Item)
    (h : ∀ it ∈ items, it.args = []) :
    extractionFold items ([], []) = ([], []) := by
  induction items with
  | nil => rfl
  | cons it rest ih =>
      have hargs : it.args = [] := h it (by simp)
      rw [extractionFold, hargs]
      exact ih (fun x hx => h x (by simp [hx]))

/-- C9: a run in which no item yields any argument raises the fatal
`RuntimeError` (surfaced to the caller); neither `args.csv` nor
`relations.csv` is written, there is no silently empty output. -/
theorem extraction_zero_args_fatal (classify : List ArgRow → List ArgRow)
    (categoriesConfigured : Bool) (items : List Item)
    (h : ∀ it ∈ items, it.args = []) :
    extraction classify categoriesConfigured items =
      .error (.runtimeError "result is empty, maybe bad prompt") := by
  rw [extraction, extractionFold_no_args items h]
  rfl

/-- Witness for C9 at a two-item run whose model calls produced nothing. -/
theorem extraction_zero_args_fatal_witness :
    extraction id true [⟨"1", [], []⟩, ⟨"2", [], []⟩] =
      .error (.runtimeError "result is empty, maybe bad prompt") :=
  extraction_zero_args_fatal id true [⟨"1", [], []⟩, ⟨"2", [], []⟩] (by decide)

/-! ## Storage Backend: `AzureBlobStorageService` (storage.py lines 122-331)

State passed explicitly: the remote container is a list of blobs (path and
byte length), the local side a list of files.  The Azure transport is
abstracted by a `transferFails` oracle saying which blob uploads raise.
Every embedded method returns `Except PyErr (state × PyRet)`: the Python
methods are annotated `-> None` and fall off the end with `None`
(`PyRet.pynone`), re-raising caught exceptions — they never return a
boolean. -/

/-- Decidable equality for embedded fallible results, used to evaluate the
embedded code on concrete inputs. -/
instance (ε α : Type) [DecidableEq ε] [DecidableEq α] :
    DecidableEq (Except ε α) := fun a b =>
  match a, b with
  | .error e, .error e' =>
      if h : e = e' then isTrue (by rw [h]) else isFalse (by simp [h])
  | .ok v, .ok v' =>
      if h : v = v' then isTrue (by rw [h]) else isFalse (by simp [h])
  | .error _, .ok _ => isFalse (by simp)
  | .ok _, .error _ => isFalse (by simp)

/-- A blob in the remote container: full path and byte length. -/
structure Blob where
  name : String
  size : Nat
deriving DecidableEq, Repr

/-- A file on the local side, with its path (relative to the directory
being walked, separators already normalized to `/`) and byte length. -/
structure LocalFile where
  path : String
  size : Nat
deriving DecidableEq, Repr

/-- Python `str.endswith`, computed on the character list so that concrete
instances evaluate inside the kernel. -/
def pyEndsWith (s sfx : String) : Bool := sfx.data.isSuffixOf s.data

/-- Python `str.startswith` / `name_starts_with`, on the character list. -/
def pyStartsWith (s p : String) : Bool := p.data.isPrefixOf s.data

/-- Python slicing `s[n:]`, on the character list. -/
def pyDrop (s : String) (n : Nat) : String := String.mk (s.data.drop n)

/-- Python `len(s)`, on the character list. -/
def pyLength (s : String) : Nat := s.data.length

/-- `os.path.basename`: the characters after the last `/`. -/
def baseName (p : String) : String :=
  String.mk (p.data.foldl (fun acc c => if c = '/' then [] else acc ++ [c]) [])

/-- `_has_target_suffix` (storage.py lines 142-154): `None` means all files
qualify, otherwise any listed suffix must end the path. -/
def hasTargetSuffix (blobPath : String) (targetSuffixList : Option (List String)) :
    Bool :=
  match targetSuffixList with
  | none => true
  | some l => l.any (fun sfx => pyEndsWith blobPath sfx)

/-- `blob_client.upload_blob(data, overwrite=True)`: replace any blob at the
path with one of the local file's length, unless the transport raises. -/
def performUpload (remote : List Blob) (transferFails : String → Bool)
    (path : String) (size : Nat) : Except PyErr (List Blob × PyRet) :=
  if transferFails path then
    .error (.otherError ("Failed to upload file to blob " ++ path))
  else
    .ok (remote.filter (fun b => b.name ≠ path) ++ [⟨path, size⟩], .pynone)

/-- `upload_file` (storage.py lines 156-199): resolve trailing-slash/empty
remote paths to the basename, optionally skip when a same-length blob
already exists, otherwise upload with overwrite.  The `except` clause logs
and RE-RAISES (`raise`), and every non-raising path returns `None`. -/
def upload_file (remote : List Blob) (transferFails : String → Bool)
    (localFilePath : String) (localSize : Nat) (remoteBlobPath : String)
    (skipIfSame : Bool) : Except PyErr (List Blob × PyRet) :=
  let path :=
    if pyEndsWith remoteBlobPath "/" then remoteBlobPath ++ baseName localFilePath
    else if remoteBlobPath = "" ∨ remoteBlobPath = "." then baseName localFilePath
    else remoteBlobPath
  if skipIfSame then
    match remote.find? (fun b => b.name == path) with
    | some b =>
        if localSize = b.size then .ok (remote, .pynone)
        else performUpload remote transferFails path localSize
    | none => performUpload remote transferFails path localSize
  else performUpload remote transferFails path localSize

/-- The `prefix`-normalization shared by `upload_directory` and
`download_directory`: append `/` to a non-empty path not already ending in
one. -/
def resolveDirPfx (remoteDirPfx : String) : String :=
  if remoteDirPfx ≠ "" ∧ ¬ pyEndsWith remoteDirPfx "/" then remoteDirPfx ++ "/"
  else remoteDirPfx

/-- The `os.walk` loop of `upload_directory`: map each local file to
`prefix + relative_path`, skip files missing the suffix filter, upload the
rest in order, counting them; the first raising upload aborts the walk (the
surrounding `except` re-raises). -/
def uploadDirGo (transferFails : String → Bool) (pfx : String)
    (skipIfSame : Bool) (targetSuffixList : Option (List String)) :
    List Blob → Nat → List LocalFile → Except PyErr (List Blob × Nat)
  | remote, count, [] => .ok (remote, count)
  | remote, count, f :: rest =>
      let remoteBlobPath := if pfx = "" then f.path else pfx ++ f.path
      if ¬ hasTargetSuffix remoteBlobPath targetSuffixList then
        uploadDirGo transferFails pfx skipIfSame targetSuffixList remote count rest
      else
        match upload_file remote transferFails f.path f.size remoteBlobPath skipIfSame with
        | .error e => .error e
        | .ok (remote', _) =>
            uploadDirGo transferFails pfx skipIfSame targetSuffixList remote'
              (count + 1) rest

/-- `upload_directory` (storage.py lines 201-244): walk and upload; zero
processed files only logs a warning; any constituent failure re-raises; the
method returns `None` in every non-raising case. -/
def upload_directory (remote : List Blob) (transferFails : String → Bool)
    (localFiles : List LocalFile) (remoteDirPfx : String)
    (targetSuffixList : Option (List String)) (skipIfSame : Bool) :
    Except PyErr (List Blob × PyRet) :=
  match uploadDirGo transferFails (resolveDirPfx remoteDirPfx) skipIfSame
      targetSuffixList remote 0 localFiles with
  | .error e => .error e
  | .ok (remote', _count) => .ok (remote', .pynone)

/-- `download_file` (storage.py lines 246-278): a missing blob raises
`FileNotFoundError`; otherwise the blob is written to the local path
(parent directories created as needed) and the method returns `None`. -/
def download_file (remote : List Blob) (localFS : List LocalFile)
    (remoteBlobPath localFilePath : String) :
    Except PyErr (List LocalFile × PyRet) :=
  match remote.find? (fun b => b.name == remoteBlobPath) with
  | none => .error (.fileNotFound ("Blob " ++ remoteBlobPath ++ " not found"))
  | some b =>
      .ok (localFS.filter (fun f => f.path ≠ localFilePath) ++
        [⟨localFilePath, b.size⟩], .pynone)

/-- The `for blob in blobs_list` loop of `download_directory`, carrying the
`found` flag. -/
def downloadDirGo (remote : List Blob) (pfx localDirPath : String)
    (targetSuffixList : Option (List String)) :
    List LocalFile → Bool → List Blob → Except PyErr (List LocalFile × Bool)
  | fs, found, [] => .ok (fs, found)
  | fs, found, b :: rest =>
      if ¬ hasTargetSuffix b.name targetSuffixList then
        downloadDirGo remote pfx localDirPath targetSuffixList fs found rest
      else
        let rel := if pfx = "" then b.name else pyDrop b.name (pyLength pfx)
        match download_file remote fs b.name (localDirPath ++ "/" ++ rel) with
        | .error e => .error e
        | .ok (fs', _) =>
            downloadDirGo remote pfx localDirPath targetSuffixList fs' true rest

/-- `download_directory` (storage.py lines 280-330): list blobs under the
normalized path, download the suffix-matching ones, and raise
`FileNotFoundError` when none matched; returns `None` otherwise. -/
def download_directory (remote : List Blob) (localFS : List LocalFile)
    (remoteDirPfx localDirPath : String)
    (targetSuffixList : Option (List String)) :
    Except PyErr (List LocalFile × PyRet) :=
  let pfx := resolveDirPfx remoteDirPfx
  match downloadDirGo remote pfx localDirPath targetSuffixList localFS false
      (remote.filter (fun b => pyStartsWith b.name pfx)) with
  | .error e => .error e
  | .ok (fs, found) =>
      if found then .ok (fs, .pynone)
      else .error (.fileNotFound ("No blobs found with " ++ remoteDirPfx))

/-- Python call binding for
`storage_service.download_directory(a, b, <kw>=value)`: the optional third
parameter of `download_directory` is named `target_suffix_list` in both
storage implementations, so a call supplying any other keyword raises
`TypeError` before the method body runs. -/
def download_directory_call (remote : List Blob) (localFS : List LocalFile)
    (remoteDirPfx localDirPath : String) (kwName : String)
    (kwValue : Option (List String)) : Except PyErr (List LocalFile × PyRet) :=
  if kwName = "target_suffix_list" then
    download_directory remote localFS remoteDirPfx localDirPath kwValue
  else
    .error (.typeError
      ("download_directory() got an unexpected keyword argument " ++ kwName))

/-- C3: the public transfer methods do NOT reduce failure to a boolean
`false`: `upload_file` re-raises on a transfer failure and returns `None`
(not `True`) on success; `upload_directory` returns `None` (not `False`)
when zero files match the filter and re-raises (not `False`) when a
constituent upload fails.  Each conjunct evaluates the embedded code at a
concrete input witnessing the divergence from the claim. -/
theorem storage_methods_raise_and_return_none :
    (upload_file [] (fun _ => true) "a.txt" 5 "dir/a.txt" true =
      .error (.otherError "Failed to upload file to blob dir/a.txt")) ∧
    (upload_file [] (fun _ => false) "a.txt" 5 "dir/a.txt" true =
      .ok ([⟨"dir/a.txt", 5⟩], .pynone)) ∧
    (upload_directory [] (fun _ => false) [] "pfx" Option.none true =
      .ok ([], .pynone)) ∧
    (upload_directory [] (fun _ => true) [⟨"a.txt", 5⟩] "pfx" Option.none true =
      .error (.otherError "Failed to upload file to blob pfx/a.txt")) := by
  refine ⟨by decide, by decide, by decide, by decide⟩

/-! ## Report Sync Service (report_sync.py) -/

/-- `_cleanup_report_files` (report_sync.py lines 31-53): walk the report
directory deleting every non-`.json` file; a raising `os.remove` aborts the
walk (already-deleted files stay deleted, the raising file and the rest
survive) and yields `False`, otherwise `True`. -/
def cleanup_report_files (removeFails : String → Bool) :
    List LocalFile → List LocalFile × Bool
  | [] => ([], true)
  | f :: rest =>
      if pyEndsWith f.path ".json" then
        let (fs, ok) := cleanup_report_files removeFails rest
        (f :: fs, ok)
      else if removeFails f.path then (f :: rest, false)
      else cleanup_report_files removeFails rest

/-- `sync_report_files_to_storage` (report_sync.py lines 72-88): upload the
report directory to `outputs/<slug>`, then run the non-JSON cleanup only
`if upload_success` — the truthiness of `upload_directory`'s return value.
A missing report directory only logs; an upload exception propagates (there
is no `try` here).  Result: remote store, local report files, return
value. -/
def sync_report_files_to_storage (remote : List Blob)
    (transferFails removeFails : String → Bool) (reportDirExists : Bool)
    (files : List LocalFile) (slug : String) :
    Except PyErr (List Blob × List LocalFile × PyRet) :=
  if ¬ reportDirExists then .ok (remote, files, .pynone)
  else
    match upload_directory remote transferFails files ("outputs/" ++ slug)
        Option.none true with
    | .error e => .error e
    | .ok (remote', uploadSuccess) =>
        if uploadSuccess.truthy then
          let (files', _) := cleanup_report_files removeFails files
          .ok (remote', files', .pynone)
        else .ok (remote', files, .pynone)

/-- C2 fails on the code: a report directory holding `test.json` and
`test.txt` uploads successfully (both blobs land under
`outputs/test-slug/`), yet `test.txt` is NOT deleted — `upload_directory`
returns `None`, so `if upload_success` is Python-falsy and
`_cleanup_report_files` never runs.  The claim (and the method's own
docstring and inline comment) say the non-durable file is deleted after a
successful upload. -/
theorem sync_report_files_skips_cleanup :
    sync_report_files_to_storage [] (fun _ => false) (fun _ => false) true
        [⟨"test.json", 10⟩, ⟨"test.txt", 5⟩] "test-slug" =
      .ok ([⟨"outputs/test-slug/test.json", 10⟩, ⟨"outputs/test-slug/test.txt", 5⟩],
        [⟨"test.json", 10⟩, ⟨"test.txt", 5⟩], .pynone) := by
  decide

/-- `download_all_report_results_from_storage` (report_sync.py lines
143-161): calls `download_directory` with the keyword `target_suffixes`,
which matches no parameter of either storage implementation (the parameter
is `target_suffix_list`), so the call raises `TypeError`; the blanket
`except Exception` turns that into `return False`.  `reportDir` stands for
`str(settings.REPORT_DIR)`. -/
def download_all_report_results_from_storage (remote : List Blob)
    (localFS : List LocalFile) (reportDir : String) : List LocalFile × Bool :=
  match download_directory_call remote localFS "outputs" reportDir
      "target_suffixes" (some ["json"]) with
  | .ok (fs, _) => (fs, true)
  | .error _ => (localFS, false)

/-- C1 fails on the code: for EVERY state of the remote store and the local
directory, `download_all_report_results_from_storage` downloads nothing and
returns `False` — the `download_directory` call binds keyword
`target_suffixes` against parameter `target_suffix_list` and raises
`TypeError`, swallowed into the `False` branch.  The claim (and the
function's own docstring and tests) expect the `json` report results to be
downloaded with a `True` return. -/
theorem download_all_report_results_always_false (remote : List Blob)
    (localFS : List LocalFile) (reportDir : String) :
    download_all_report_results_from_storage remote localFS reportDir =
      (localFS, false) := by
  rfl

/-! ## `download_status_file_from_storage` (report_sync.py lines 116-141)

The local status file is `Option (size × parse result)`: `none` when the
file does not exist, otherwise its byte size together with `some v` when
`json.load` yields the JSON value `v` and `none` when `json.load` raises.
The remote status object has the same shape (what it would parse to once
downloaded).  Note the skip test: `exists ∧ st_size > 0`, then `json.load`
— which runs OUTSIDE any `try`, so a malformed non-empty file raises — and
then `if report_status:`, Python truthiness of the parsed value. -/

/-- A parsed JSON value, with Python truthiness. -/
inductive JVal where
  | jnull
  | jbool (b : Bool)
  | jnum (n : Int)
  | jstr (s : String)
  | jarr (elems : List JVal)
  | jobj (fields : List (String × JVal))
deriving Repr

/-- Python truthiness of a JSON value (`if report_status:`). -/
def JVal.truthy : JVal → Bool
  | .jnull => false
  | .jbool b => b
  | .jnum n => n != 0
  | .jstr s => s ≠ ""
  | .jarr l => ¬ l.isEmpty
  | .jobj f => ¬ f.isEmpty

/-- What `download_status_file_from_storage` produces when it does not
raise: the boolean return, whether the remote store was contacted, and the
local status file afterwards. -/
structure StatusDownloadResult where
  ret : Bool
  contactedRemote : Bool
  localAfter : Option (Nat × Option JVal)
deriving Repr

/-- The `try: download_file(...); return True` tail: a missing remote
status object raises `FileNotFoundError` → `False`; any other download
failure → `False`; success overwrites the local file and returns `True`. -/
def tryDownloadStatusFile (localStatus remoteStatus : Option (Nat × Option JVal))
    (downloadFails : Bool) : StatusDownloadResult :=
  match remoteStatus with
  | none => ⟨false, true, localStatus⟩
  | some blob =>
      if downloadFails then ⟨false, true, localStatus⟩
      else ⟨true, true, some blob⟩

/-- `download_status_file_from_storage` (report_sync.py lines 116-141). -/
def download_status_file_from_storage
    (localStatus remoteStatus : Option (Nat × Option JVal))
    (downloadFails : Bool) : Except PyErr StatusDownloadResult :=
  match localStatus with
  | some (size, parsed) =>
      if size > 0 then
        match parsed with
        | none => .error (.jsonDecodeError "report_status.json")
        | some v =>
            if v.truthy then .ok ⟨true, false, localStatus⟩
            else .ok (tryDownloadStatusFile localStatus remoteStatus downloadFails)
      else .ok (tryDownloadStatusFile localStatus remoteStatus downloadFails)
  | none => .ok (tryDownloadStatusFile localStatus remoteStatus downloadFails)

/-- Counterexample to C7 as stated: the local status file exists and is
non-empty (two bytes whose content parses to the empty JSON object, which
is falsy in Python), yet the function DOES contact the remote store and —
the remote object being absent — returns `False`, not success. -/
theorem download_status_nonempty_local_not_skipped :
    download_status_file_from_storage (some (2, some (.jobj []))) Option.none
        false =
      .ok ⟨false, true, some (2, some (.jobj []))⟩ := by
  rfl

/-- C7 amended: the download is skipped with a `True` return — without
contacting the remote store — exactly when the local status file exists, is
non-empty AND parses to a Python-truthy JSON value; when the local file is
absent, empty, or parses to a falsy value, the remote status file is
downloaded, returning `False` (not raising) when the remote object is
absent. -/
theorem download_status_skip_requires_truthy
    (localStatus remoteStatus : Option (Nat × Option JVal)) (downloadFails : Bool) :
    (∀ size v, localStatus = some (size, some v) → 0 < size → v.truthy = true →
      download_status_file_from_storage localStatus remoteStatus downloadFails =
        .ok ⟨true, false, localStatus⟩) ∧
    ((localStatus = Option.none ∨ (∃ p, localStatus = some p ∧ p.1 = 0) ∨
        (∃ size v, localStatus = some (size, some v) ∧ v.truthy = false)) →
      remoteStatus = Option.none →
      download_status_file_from_storage localStatus remoteStatus downloadFails =
        .ok ⟨false, true, localStatus⟩) := by
  constructor
  · intro size v hl hsize htruthy
    subst hl
    simp [download_status_file_from_storage, hsize, htruthy]
  · intro hl hr
    subst hr
    rcases hl with hl | ⟨p, hl, hp⟩ | ⟨size, v, hl, hv⟩
    · subst hl; rfl
    · obtain ⟨size, parsed⟩ := p
      subst hl
      simp only at hp
      subst hp
      rfl
    · subst hl
      by_cases hsize : 0 < size
      · simp [download_status_file_from_storage, hsize, hv, tryDownloadStatusFile]
      · simp [download_status_file_from_storage, hsize, tryDownloadStatusFile]

/-- Witness for the amended C7: a truthy non-empty local file skips with
success; an absent local file with an absent remote object yields `False`. -/
theorem download_status_skip_requires_truthy_witness :
    (download_status_file_from_storage
        (some (5, some (.jobj [("a", .jnull)]))) Option.none false =
      .ok ⟨true, false, some (5, some (.jobj [("a", .jnull)]))⟩) ∧
    (download_status_file_from_storage Option.none Option.none false =
      .ok ⟨false, true, Option.none⟩) :=
  ⟨(download_status_skip_requires_truthy
      (some (5, some (.jobj [("a", .jnull)]))) Option.none false).1
      5 (.jobj [("a", .jnull)]) rfl (by decide) rfl,
   (download_status_skip_requires_truthy Option.none Option.none false).2
      (Or.inl rfl) rfl⟩

/-! ## Report Status Store (report_status.py)

The process-wide `_report_status` dict is a slug-keyed, insertion-ordered
association table.  Each store operation runs under the module lock and each
mutation rewrites the status file from the in-memory table, so the table
alone is the state.  An operation sequence models successive requests: a
`set_status` call on an unknown slug raises `ValueError` to its own caller
and leaves the table unchanged, later requests still run. -/

/-- The fields of `ReportInput` (schemas/admin_report.py, not part of this
snapshot) that `add_new_report_to_status` reads: `input` (the slug),
`question` (title), `intro` (description). -/
structure ReportInput where
  input : String
  question : String
  intro : String
deriving DecidableEq, Repr

/-- One record of the status table as `add_new_report_to_status` writes it. -/
structure StatusRecord where
  slug : String
  status : String
  title : String
  description : String
deriving DecidableEq, Repr

/-- Python dict assignment `d[k] = v`: replace in place, else append. -/
def dictSet : List (String × StatusRecord) → String → StatusRecord →
    List (String × StatusRecord)
  | [], k, r => [(k, r)]
  | (k', r') :: rest, k, r =>
      if k' = k then (k, r) :: rest else (k', r') :: dictSet rest k r

/-- Python `slug in _report_status`. -/
def containsKey : List (String × StatusRecord) → String → Bool
  | [], _ => false
  | (k', _) :: rest, k => k' = k || containsKey rest k

/-- `add_new_report_to_status` (report_status.py lines 60-69): enter the
slug with status `"processing"`. -/
def add_new_report_to_status (tbl : List (String × StatusRecord))
    (ri : ReportInput) : List (String × StatusRecord) :=
  dictSet tbl ri.input ⟨ri.input, "processing", ri.question, ri.intro⟩

/-- `set_status` (report_status.py lines 72-78): raise `ValueError` for an
unknown slug, otherwise store the caller's status string verbatim — the
code validates nothing about it. -/
def set_status (tbl : List (String × StatusRecord)) (slug status : String) :
    Except PyErr (List (String × StatusRecord)) :=
  if containsKey tbl slug then
    .ok (tbl.map (fun p => if p.1 = slug then (p.1, { p.2 with status := status }) else p))
  else .error (.valueError ("slug " ++ slug ++ " not found in report status"))

/-- `get_status` (report_status.py lines 81-84): unknown slugs degrade to
the sentinel `"undefined"`. -/
def get_status (tbl : List (String × StatusRecord)) (slug : String) : String :=
  match tbl.find? (fun p => p.1 == slug) with
  | some p => p.2.status
  | none => "undefined"

/-- One externally driven store operation. -/
inductive StatusOp where
  | addNew (ri : ReportInput)
  | setStat (slug status : String)
deriving DecidableEq, Repr

/-- Apply one operation; a raising `set_status` leaves the table unchanged
(the exception surfaces to that caller only). -/
def applyOp (tbl : List (String × StatusRecord)) : StatusOp →
    List (String × StatusRecord)
  | .addNew ri => add_new_report_to_status tbl ri
  | .setStat slug status =>
      match set_status tbl slug status with
      | .ok tbl' => tbl'
      | .error _ => tbl

/-- A sequence of store operations starting from a table. -/
def runOps : List (String × StatusRecord) → List StatusOp →
    List (String × StatusRecord)
  | tbl, [] => tbl
  | tbl, op :: rest => runOps (applyOp tbl op) rest

/-- Counterexample to C8 as stated: the store itself enforces neither the
four-value enumeration nor the transition relation.  The operation sequence
`add s; set s deleted` reaches `deleted`, after which `set s ready`
transitions OUT of `deleted`; and `set s bogus` stores a fifth,
non-enumerated status value. -/
theorem status_store_transitions_unconstrained :
    (get_status (runOps [] [.addNew ⟨"s", "q", "i"⟩, .setStat "s" "deleted"]) "s" =
        "deleted" ∧
      get_status (runOps []
          [.addNew ⟨"s", "q", "i"⟩, .setStat "s" "deleted", .setStat "s" "ready"])
          "s" = "ready") ∧
    get_status (runOps [] [.addNew ⟨"s", "q", "i"⟩, .setStat "s" "bogus"]) "s" =
      "bogus" := by
  decide

lemma mem_dictSet (k : String) (r : StatusRecord) :
    ∀ (tbl : List (String × StatusRecord)) (p : String × StatusRecord),
      p ∈ dictSet tbl k r → p ∈ tbl ∨ p = (k, r) := by
  intro tbl
  induction tbl with
  | nil => intro p hp; simp only [dictSet, List.mem_singleton] at hp; exact Or.inr hp
  | cons q rest ih =>
      intro p hp
      obtain ⟨k', r'⟩ := q
      by_cases hk : k' = k
      · rw [dictSet, if_pos hk] at hp
        rcases List.mem_cons.mp hp with h | h
        · exact Or.inr h
        · exact Or.inl (List.mem_cons_of_mem _ h)
      · rw [dictSet, if_neg hk] at hp
        rcases List.mem_cons.mp hp with h | h
        · exact Or.inl (h ▸ List.mem_cons_self _ _)
        · rcases ih p h with h' | h'
          · exact Or.inl (List.mem_cons_of_mem _ h')
          · exact Or.inr h'

lemma applyOp_status_mem (S : List String) (hproc : "processing" ∈ S)
    (tbl : List (String × StatusRecord)) (op : StatusOp)
    (ht : ∀ p ∈ tbl, p.2.status ∈ S)
    (hop : ∀ slug status, op = .setStat slug status → status ∈ S) :
    ∀ p ∈ applyOp tbl op, p.2.status ∈ S := by
  intro p hp
  cases op with
  | addNew ri =>
      rcases mem_dictSet ri.input _ tbl p hp with h | h
      · exact ht p h
      · rw [h]; exact hproc
  | setStat slug status =>
      have hS : status ∈ S := hop slug status rfl
      rw [applyOp, set_status] at hp
      by_cases hc : containsKey tbl slug
      · rw [if_pos hc] at hp
        simp only [List.mem_map] at hp
        obtain ⟨q, hq, hpe⟩ := hp
        by_cases hqs : q.1 = slug
        · rw [if_pos hqs] at hpe
          rw [← hpe]
          exact hS
        · rw [if_neg hqs] at hpe
          rw [← hpe]
          exact ht q hq
      · rw [if_neg hc] at hp
        exact ht p hp

lemma runOps_status_mem (S : List String) (hproc : "processing" ∈ S)
    (ops : List StatusOp) :
    ∀ (tbl : List (String × StatusRecord)),
      (∀ p ∈ tbl, p.2.status ∈ S) →
      (∀ op ∈ ops, ∀ slug status, op = .setStat slug status → status ∈ S) →
      ∀ p ∈ runOps tbl ops, p.2.status ∈ S := by
  induction ops with
  | nil => intro tbl ht _ p hp; exact ht p hp
  | cons op rest ih =>
      intro tbl ht hops p hp
      exact ih (applyOp tbl op)
        (applyOp_status_mem S hproc tbl op ht
          (fun slug status h => hops op (by simp) slug status h))
        (fun o ho slug status h => hops o (by simp [ho]) slug status h) p hp

/-- C8 amended: `add_new_report_to_status` always enters a record at
`"processing"`, and `set_status` stores the caller's string verbatim
(raising only for unknown slugs); therefore every record's status stays
within the four enumerated values whenever every `set_status` call in the
sequence passes one of them — but the store itself restricts no transition
(in particular `deleted → ready` is reachable, see the counterexample). -/
theorem status_store_enum_invariant (ops : List StatusOp)
    (h : ∀ op ∈ ops, ∀ slug status, op = .setStat slug status →
      status ∈ (["processing", "ready", "error", "deleted"] : List String)) :
    ∀ p ∈ runOps [] ops,
      p.2.status ∈ (["processing", "ready", "error", "deleted"] : List String) :=
  runOps_status_mem ["processing", "ready", "error", "deleted"] (by simp) ops []
    (by simp) h

/-- Witness for the amended C8 at the sequence `add s; set s ready`. -/
theorem status_store_enum_invariant_witness :
    (("s", StatusRecord.mk "s" "ready" "q" "i") :
        String × StatusRecord).2.status ∈
      (["processing", "ready", "error", "deleted"] : List String) :=
  status_store_enum_invariant [.addNew ⟨"s", "q", "i"⟩, .setStat "s" "ready"]
    (by
      intro op hop slug status hoq
      rcases List.mem_cons.mp hop with h | h
      · rw [h] at hoq; exact absurd hoq (by simp)
      · rcases List.mem_cons.mp h with h2 | h2
        · rw [h2] at hoq
          injection hoq with h3 h4
          rw [← h4]
          simp
        · exact absurd h2 (by simp))
    ("s", ⟨"s", "ready", "q", "i"⟩) (by decide)

/-! ## Report schema and `load_status_as_reports`
(schemas/report.py lines 6-16, report_status.py lines 29-42)

`Report` is a pydantic model whose `status` field is the three-valued
`ReportStatus` enum; building a `Report` from a status record whose status
string is not one of the three member values raises a pydantic
`ValidationError`.  `load_status_as_reports` evaluates the comprehension
`[Report(**report) for report in _report_status.values()]` left to right;
the first failing record raises out of the function. -/

/-- `ReportStatus` (schemas/report.py lines 6-9): only `processing`,
`ready`, `error` — no `deleted` member. -/
inductive ReportStatus where
  | processing
  | ready
  | error
deriving DecidableEq, Repr

/-- Pydantic enum validation of the `status` field. -/
def parseReportStatus (s : String) : Except PyErr ReportStatus :=
  if s = "processing" then .ok .processing
  else if s = "ready" then .ok .ready
  else if s = "error" then .ok .error
  else .error (.validationError ("status: " ++ s ++ " is not a valid ReportStatus"))

/-- `Report` (schemas/report.py lines 12-18). -/
structure Report where
  slug : String
  title : String
  description : String
  status : ReportStatus
  is_pubcom : Bool
  is_public : Bool
deriving DecidableEq, Repr

/-- `Report(**report)` from a status record: the record's fields plus the
schema defaults `is_pubcom = False`, `is_public = True`. -/
def parseReport (r : StatusRecord) : Except PyErr Report :=
  match parseReportStatus r.status with
  | .error e => .error e
  | .ok st => .ok ⟨r.slug, r.title, r.description, st, false, true⟩

/-- The list comprehension: left to right, first raise wins. -/
def parseReports : List StatusRecord → Except PyErr (List Report)
  | [] => .ok []
  | r :: rest =>
      match parseReport r with
      | .error e => .error e
      | .ok rep =>
          match parseReports rest with
          | .error e => .error e
          | .ok reps => .ok (rep :: reps)

/-- The status file as `load_status_as_reports` reads it: missing and
invalid-JSON files both reset the table to empty (report_status.py lines
35-40), otherwise the parsed slug→record mapping. -/
inductive StatusFileState where
  | missing
  | invalidJson
  | content (tbl : List (String × StatusRecord))

/-- `load_status_as_reports` (report_status.py lines 29-42). -/
def load_status_as_reports : StatusFileState → Except PyErr (List Report)
  | .missing => .ok []
  | .invalidJson => .ok []
  | .content tbl => parseReports (tbl.map Prod.snd)

lemma parseReports_error_of_mem (recs : List StatusRecord) (r : StatusRecord)
    (hr : r ∈ recs) (e : PyErr) (he : parseReport r = .error e) :
    ∃ e', parseReports recs = .error e' := by
  induction recs with
  | nil => exact absurd hr (by simp)
  | cons q rest ih =>
      rw [parseReports]
      cases hq : parseReport q with
      | error e' => exact ⟨e', rfl⟩
      | ok rep =>
          have hrr : r ∈ rest := by
            rcases List.mem_cons.mp hr with h | h
            · subst h; rw [hq] at he; exact absurd he (by simp)
            · exact h
          obtain ⟨e', he'⟩ := ih hrr
          rw [he']
          exact ⟨e', rfl⟩

/-- C10: a status file holding at least one record whose status is
`"deleted"` (a value the spec's lifecycle admits) makes
`load_status_as_reports` raise a validation error instead of returning a
report list, because the `Report` schema's `ReportStatus` enum has no
`deleted` member. -/
theorem load_status_as_reports_deleted_raises
    (tbl : List (String × StatusRecord))
    (h : ∃ p ∈ tbl, p.2.status = "deleted") :
    ∃ e, load_status_as_reports (.content tbl) = .error e := by
  obtain ⟨p, hp, hs⟩ := h
  have hmem : p.2 ∈ tbl.map Prod.snd := List.mem_map_of_mem Prod.snd hp
  have herr : parseReport p.2 =
      .error (.validationError "status: deleted is not a valid ReportStatus") := by
    rw [parseReport, parseReportStatus, hs]
    rfl
  exact parseReports_error_of_mem (tbl.map Prod.snd) p.2 hmem _ herr

/-- Witness for C10 at a two-record status file whose second record is
`deleted`. -/
theorem load_status_as_reports_deleted_raises_witness :
    ∃ e, load_status_as_reports (.content
      [("a", ⟨"a", "ready", "t", "d"⟩), ("b", ⟨"b", "deleted", "t", "d"⟩)]) =
        .error e :=
  load_status_as_reports_deleted_raises
    [("a", ⟨"a", "ready", "t", "d"⟩), ("b", ⟨"b", "deleted", "t", "d"⟩)]
    ⟨("b", ⟨"b", "deleted", "t", "d"⟩), by decide, rfl⟩

end KouchouAi
